import Mathlib

/-!
Verification of the supertag-raycast schema-adaptive content-mapping core.

This file embeds, as executable Lean definitions, the code of:
* `schema-cache.ts` (`SchemaCache`: snapshot loading, mtime-based refresh,
  and recursive inheritance resolution `collectInheritedFields`),
* `supertag-analyzer.ts` (`analyzeSupertag` scoring),
* `field-mapper.ts` (`mapClipToFields`),
* `ai/types.ts` (`FIELD_ALIASES`, `findMatchingField`, `createSmartFieldMapping`),
and proves or refutes the specification's claims about them.

JavaScript `Map`s and plain string-keyed objects are modelled as association
lists with JS insertion semantics (`set` on an existing key overwrites in
place, otherwise appends; iteration is in insertion order).  Optional string
values model `string | undefined`; JS truthiness of a string is `≠ ""`.
-/

set_option maxHeartbeats 1000000

/-- Field definition as stored in `schema-registry.json` (interface `CachedField`). -/
structure CachedField where
  attributeId : String
  name : String
  normalizedName : String
  description : Option String := none
  dataType : Option String := none
  /-- `targetSupertag` is an optional `{id, name}` pair. -/
  targetSupertag : Option (String × String) := none
  /-- Origin supertag name (for inherited fields) - added during collection. -/
  originTagName : Option String := none
  /-- Inheritance depth (0 = own field, 1+ = inherited) - added during collection. -/
  depth : Option Nat := none
  deriving Repr, DecidableEq

/-- Supertag schema as stored in `schema-registry.json` (interface `CachedSupertag`). -/
structure CachedSupertag where
  id : String
  name : String
  normalizedName : String
  description : Option String := none
  color : Option String := none
  fields : List CachedField
  /-- Parent supertag IDs (the `extends` array, optional in the JSON). -/
  extendsIds : Option (List String) := none
  deriving Repr, DecidableEq

/-- The parsed `schema-registry.json` file (interface `SchemaRegistryFile`). -/
structure SchemaRegistryFile where
  version : Nat
  supertags : List CachedSupertag
  deriving Repr, DecidableEq

/-- A JS `Map<string, CachedSupertag>` as an association list in insertion order. -/
abbrev SchemaMap := List (String × CachedSupertag)

/-- `Map.set`: overwrite in place if the key exists, else append. -/
def mapSet (m : SchemaMap) (k : String) (v : CachedSupertag) : SchemaMap :=
  if m.any (fun p => p.1 == k) then
    m.map (fun p => if p.1 == k then (k, v) else p)
  else
    m ++ [(k, v)]

/-- `Map.get`: value of the first (unique) entry with the key. -/
def mapGet (m : SchemaMap) (k : String) : Option CachedSupertag :=
  (m.find? (fun p => p.1 == k)).map (fun p => p.2)

/-- `Array.from(map.values())` in insertion order. -/
def mapValues (m : SchemaMap) : List CachedSupertag :=
  m.map (fun p => p.2)

namespace SchemaCache

/-- One step of the `seenFieldNames` filter loop: keep a field only if its
`name` has not been seen, recording newly seen names.  Returns the kept
fields together with the final seen set. -/
def filterNewFields (seen : List String) : List CachedField → List CachedField × List String
  | [] => ([], seen)
  | f :: rest =>
    if f.name ∈ seen then filterNewFields seen rest
    else
      let p := filterNewFields (f.name :: seen) rest
      (f :: p.1, p.2)

/-- The `for (const parentId of supertag.extends)` loop of
`collectInheritedFields`: look each parent id up in the cache, recurse via
`recur` (the recursive call at one less fuel), and append the parent's fields
that are not already present.  `visited` is threaded through, since the
source shares one mutable `Set` per resolution. -/
def collectParentsAux (lookup : String → Option CachedSupertag)
    (recur : CachedSupertag → List String → List CachedField × List String) :
    List String → List String → List String → List CachedField →
      List CachedField × List String
  | [], visited, _seen, acc => (acc, visited)
  | pid :: rest, visited, seen, acc =>
    match lookup pid with
    | none => collectParentsAux lookup recur rest visited seen acc
    | some parent =>
      let r := recur parent visited
      let kept := filterNewFields seen r.1
      collectParentsAux lookup recur rest r.2 kept.2 (acc ++ kept.1)

/-- Parent lookup used by `collectInheritedFields`:
`Array.from(this.cache.values()).find(s => s.id === parentId)`. -/
def findParent (cache : SchemaMap) (pid : String) : Option CachedSupertag :=
  (mapValues cache).find? (fun s => s.id == pid)

/-- `SchemaCache.collectInheritedFields`, with a fuel parameter standing in
for the unbounded recursion of the source (theorem `c3_cycle_termination`
shows the fuel used by `resolveSupertag` is always sufficient).  Mirrors the
source: return `[]` for an already-visited tag, mark the tag visited, keep
the tag's own fields first (annotated with `originTagName` and `depth`,
skipping duplicate names), then walk the `extends` list. -/
def collectInheritedFields (cache : SchemaMap) :
    Nat → CachedSupertag → List String → Nat → List CachedField × List String
  | 0, _, visited, _ => ([], visited)
  | fuel + 1, supertag, visited, depth =>
    if supertag.id ∈ visited then ([], visited)
    else
      let visited1 := supertag.id :: visited
      let ownAnnotated := supertag.fields.map
        (fun f => { f with originTagName := some supertag.name, depth := some depth })
      let own := filterNewFields [] ownAnnotated
      collectParentsAux (findParent cache)
        (fun parent v => collectInheritedFields cache fuel parent v (depth + 1))
        (supertag.extendsIds.getD []) visited1 own.2 own.1

/-- Resolution of `getSupertag` on an already-loaded cache, with explicit fuel. -/
def resolveSupertagFuel (cache : SchemaMap) (fuel : Nat) (tagName : String) :
    Option CachedSupertag :=
  match mapGet cache tagName with
  | none => none
  | some supertag =>
    some { supertag with fields := (collectInheritedFields cache fuel supertag [] 0).1 }

/-- `getSupertag` body on a loaded cache: look up the tag by name and flatten
its inherited fields.  The fuel `cache.length + 1` dominates the number of
distinct tag ids, so the recursion never runs out (theorem
`c3_cycle_termination`). -/
def resolveSupertag (cache : SchemaMap) (tagName : String) : Option CachedSupertag :=
  resolveSupertagFuel cache (cache.length + 1) tagName

/-- The raw root-to-leaf traversal underlying `collectInheritedFields`:
identical parent-walk and `visited` handling, but with no field-name
de-duplication.  Used to state which occurrence of a duplicated name the
real collection keeps. -/
def rawParentsAux (lookup : String → Option CachedSupertag)
    (recur : CachedSupertag → List String → List CachedField × List String) :
    List String → List String → List CachedField → List CachedField × List String
  | [], visited, acc => (acc, visited)
  | pid :: rest, visited, acc =>
    match lookup pid with
    | none => rawParentsAux lookup recur rest visited acc
    | some parent =>
      let r := recur parent visited
      rawParentsAux lookup recur rest r.2 (acc ++ r.1)

/-- Raw (un-deduplicated) field traversal, in the exact order
`collectInheritedFields` encounters the fields. -/
def rawCollectFields (cache : SchemaMap) :
    Nat → CachedSupertag → List String → Nat → List CachedField × List String
  | 0, _, visited, _ => ([], visited)
  | fuel + 1, supertag, visited, depth =>
    if supertag.id ∈ visited then ([], visited)
    else
      let visited1 := supertag.id :: visited
      let ownAnnotated := supertag.fields.map
        (fun f => { f with originTagName := some supertag.name, depth := some depth })
      rawParentsAux (findParent cache)
        (fun parent v => rawCollectFields cache fuel parent v (depth + 1))
        (supertag.extendsIds.getD []) visited1 ownAnnotated

/-- Keep only the first occurrence of every field name. -/
def dedupByName (l : List CachedField) : List CachedField :=
  (filterNewFields [] l).1

/-- The complete raw field sequence a resolution of `tag` traverses. -/
def rawInheritedFields (cache : SchemaMap) (tag : CachedSupertag) : List CachedField :=
  (rawCollectFields cache (cache.length + 1) tag [] 0).1

/-! ### The stateful cache object

`SchemaCache` keeps two mutable members, `cache` (the name-indexed map, or
`null`) and `lastMtime`.  The file system is a passive parameter of each
call: `existsSync`, `statSync` (which may throw, modelled as `Except`), and
the combined `readFileSync` + `JSON.parse` result (`none` = the read or the
parse threw). -/

deriving instance DecidableEq for Except

/-- Observable behaviour of the snapshot file during one call. -/
structure FileState where
  /-- `existsSync(schemaPath)` (returns `false` rather than throwing). -/
  fileExists : Bool
  /-- `statSync(schemaPath).mtimeMs`, or a thrown error. -/
  statMtime : Except Unit Nat
  /-- `JSON.parse(readFileSync(schemaPath))`, or `none` when it throws. -/
  readParse : Option SchemaRegistryFile
  deriving Repr, DecidableEq

/-- The two mutable members of a `SchemaCache` instance. -/
structure CacheState where
  cache : Option SchemaMap
  lastMtime : Option Nat
  deriving Repr, DecidableEq

/-- `SchemaCache.loadSchemas`: parse the file and build the name-indexed map;
on a parse error clear the cache (the internal `try/catch` never rethrows). -/
def loadSchemas (fs : FileState) (st : CacheState) : CacheState :=
  match fs.readParse with
  | none => { st with cache := none }
  | some data =>
    { st with
      cache := some (data.supertags.foldl (fun m tag => mapSet m tag.name tag) []) }

/-- `SchemaCache.refreshIfNeeded`: clear the cache when the file is absent;
otherwise stat it, and reload when no map exists or the mtime changed.  The
surrounding `try/catch` turns a `statSync` error into "keep current state". -/
def refreshIfNeeded (fs : FileState) (st : CacheState) : CacheState :=
  if !fs.fileExists then { cache := none, lastMtime := none }
  else
    match fs.statMtime with
    | Except.error _ => st
    | Except.ok currentMtime =>
      if st.cache.isNone || st.lastMtime != some currentMtime then
        let st1 := loadSchemas fs st
        { st1 with lastMtime := some currentMtime }
      else st

/-- `SchemaCache.getSupertag`: refresh, then resolve the tag (with inherited
fields) against the refreshed map.  Returns the result and the new state. -/
def getSupertag (fs : FileState) (st : CacheState) (tagName : String) :
    Option CachedSupertag × CacheState :=
  let st1 := refreshIfNeeded fs st
  (match st1.cache with
   | none => none
   | some c => resolveSupertag c tagName, st1)

/-- `SchemaCache.getAllSupertags`: refresh, then list the map's values
(without inheritance resolution), or `[]` when the cache is unavailable. -/
def getAllSupertags (fs : FileState) (st : CacheState) :
    List CachedSupertag × CacheState :=
  let st1 := refreshIfNeeded fs st
  (match st1.cache with
   | none => []
   | some c => mapValues c, st1)

end SchemaCache

/-! ## supertag-analyzer.ts -/

/-- JS `String.prototype.toLowerCase` (ASCII-adequate, per-character). -/
def strToLower (s : String) : String :=
  ⟨s.data.map Char.toLower⟩

/-- `p` is a prefix of `l` (structural, so the kernel can evaluate it). -/
def listIsPrefix : List Char → List Char → Bool
  | [], _ => true
  | _ :: _, [] => false
  | a :: as, b :: bs => a == b && listIsPrefix as bs

/-- JS `s.startsWith(p)`. -/
def strStartsWith (s p : String) : Bool :=
  listIsPrefix p.data s.data

/-- `sub` occurs as a contiguous sublist of the second argument. -/
def listIsSubstring (sub : List Char) : List Char → Bool
  | [] => listIsPrefix sub []
  | c :: rest => listIsPrefix sub (c :: rest) || listIsSubstring sub rest

/-- JS `s.includes(sub)`: `sub` occurs as a contiguous substring of `s`. -/
def strIncludes (s sub : String) : Bool :=
  listIsSubstring sub.data s.data

/-- JS truthiness of `string | undefined`: defined and non-empty. -/
def optTruthy (o : Option String) : Bool :=
  match o with
  | none => false
  | some s => s != ""

/-- `PATTERNS.URL = /^(url|link|source|href)/i`. -/
def testUrlPattern (name : String) : Bool :=
  ["url", "link", "source", "href"].any (fun p => strStartsWith (strToLower name) p)

/-- `PATTERNS.TEXT = /^(notes?|summary|highlights?|snapshot|content|excerpt|description|text)/i`
(`notes?` matches exactly when `note` is a prefix, likewise `highlights?`). -/
def testTextPattern (name : String) : Bool :=
  ["note", "summary", "highlight", "snapshot", "content", "excerpt",
    "description", "text"].any (fun p => strStartsWith (strToLower name) p)

/-- `PATTERNS.AUTHOR = /^(author|creator|by|writer)/i`. -/
def testAuthorPattern (name : String) : Bool :=
  ["author", "creator", "by", "writer"].any (fun p => strStartsWith (strToLower name) p)

/-- `PATTERNS.DESCRIPTION = /^(description|summary|about|overview)/i`. -/
def testDescriptionPattern (name : String) : Bool :=
  ["description", "summary", "about", "overview"].any (fun p => strStartsWith (strToLower name) p)

/-- The full URL-field test of `analyzeSupertag`:
`field.dataType === "url" || PATTERNS.URL.test(field.name) || field.name.toLowerCase().includes("url")`. -/
def matchesUrlFamily (f : CachedField) : Bool :=
  f.dataType == some "url" || testUrlPattern f.name || strIncludes (strToLower f.name) "url"

/-- Analysis result for a single supertag (interface `AnalyzedSupertag`);
also serves as the accumulator state of the `for` loop in `analyzeSupertag`. -/
structure AnalyzedSupertag where
  supertag : CachedSupertag
  score : Nat
  hasUrlField : Bool
  urlFieldName : Option String
  textFields : List String
  hasAuthorField : Bool
  authorFieldName : Option String
  descriptionFieldName : Option String
  deriving Repr, DecidableEq

/-- One iteration of the field loop of `analyzeSupertag`, with the scoring
weights `SCORES = {URL_FIELD: 10, TEXT_FIELD: 5, AUTHOR_FIELD: 2, DESCRIPTION_FIELD: 3}`. -/
def analyzeStep (st : AnalyzedSupertag) (field : CachedField) : AnalyzedSupertag :=
  let st :=
    if matchesUrlFamily field then
      if !st.hasUrlField then
        { st with hasUrlField := true, urlFieldName := some field.name,
                  score := st.score + 10 }
      else st
    else st
  let st :=
    if testTextPattern field.name then
      { st with textFields := st.textFields ++ [field.name], score := st.score + 5 }
    else st
  let st :=
    if testAuthorPattern field.name then
      if !st.hasAuthorField then
        { st with hasAuthorField := true, authorFieldName := some field.name,
                  score := st.score + 2 }
      else st
    else st
  let st :=
    if testDescriptionPattern field.name && !(optTruthy st.descriptionFieldName) then
      { st with descriptionFieldName := some field.name, score := st.score + 3 }
    else st
  st

/-- `analyzeSupertag`: fold the field loop over the supertag's fields. -/
def analyzeSupertag (supertag : CachedSupertag) : AnalyzedSupertag :=
  supertag.fields.foldl analyzeStep
    { supertag := supertag, score := 0, hasUrlField := false, urlFieldName := none,
      textFields := [], hasAuthorField := false, authorFieldName := none,
      descriptionFieldName := none }

/-! ## field-mapper.ts -/

/-- A JS `Record<string, string>` as an association list in insertion order. -/
abbrev StrMap := List (String × String)

/-- Assignment `obj[k] = v`: overwrite in place if present, else append. -/
def objSet (m : StrMap) (k v : String) : StrMap :=
  if m.any (fun p => p.1 == k) then
    m.map (fun p => if p.1 == k then (k, v) else p)
  else
    m ++ [(k, v)]

/-- `ClipData`: data from a web clip to be mapped to fields. -/
structure ClipData where
  url : String
  title : String
  selection : Option String := none
  author : Option String := none
  description : Option String := none
  deriving Repr, DecidableEq

/-- `MapOptions` (the optional `formatUrlAsLink` flag; absent = `false`). -/
structure MapOptions where
  formatUrlAsLink : Bool := false
  deriving Repr, DecidableEq

/-- `getBestTextField` (private helper of `field-mapper.ts`):
priority `Notes > Summary > Highlight > Snapshot`, else the first text field. -/
def getBestTextField (textFields : List String) : Option String :=
  match ["Notes", "Summary", "Highlight", "Snapshot"].findSome?
      (fun preferred => textFields.find? (fun f => strToLower f == strToLower preferred)) with
  | some found => some found
  | none => textFields.head?

/-- `mapClipToFields`: map clip data to supertag fields using the analysis. -/
def mapClipToFields (clip : ClipData) (analyzed : AnalyzedSupertag)
    (options : MapOptions := {}) : StrMap :=
  let fields : StrMap := []
  -- Map URL field
  let fields :=
    if analyzed.hasUrlField && optTruthy analyzed.urlFieldName then
      objSet fields (analyzed.urlFieldName.getD "")
        (if options.formatUrlAsLink then
          "[" ++ clip.title ++ "](" ++ clip.url ++ ")"
        else clip.url)
    else fields
  -- Map selection to best text field
  let fields :=
    if optTruthy clip.selection && decide (0 < analyzed.textFields.length) then
      match getBestTextField analyzed.textFields with
      | some textFieldName =>
        if textFieldName != "" then objSet fields textFieldName (clip.selection.getD "")
        else fields
      | none => fields
    else fields
  -- Map author
  let fields :=
    if optTruthy clip.author && analyzed.hasAuthorField
        && optTruthy analyzed.authorFieldName then
      objSet fields (analyzed.authorFieldName.getD "") (clip.author.getD "")
    else fields
  -- Map description if there is a dedicated field
  let fields :=
    if optTruthy clip.description && optTruthy analyzed.descriptionFieldName then
      objSet fields (analyzed.descriptionFieldName.getD "") (clip.description.getD "")
    else fields
  fields

/-! ## ai/types.ts (smart field mapping) -/

/-- The `FIELD_ALIASES` table: template field name to candidate schema field
names, in priority order (first match wins). -/
def fieldAliases (templateFieldName : String) : Option (List String) :=
  if templateFieldName = "URL" then
    some ["URL", "Url", "url", "Link", "link", "Source", "source", "Href", "href"]
  else if templateFieldName = "Author" then
    some ["Author", "author", "Creator", "creator", "By", "by", "Writer", "writer"]
  else if templateFieldName = "Channel" then
    some ["Channel", "channel", "Author", "author", "Creator", "creator", "By", "by"]
  else if templateFieldName = "Description" then
    some ["Description", "description", "Excerpt", "excerpt", "About", "about",
      "Overview", "overview"]
  else if templateFieldName = "Summary" then
    some ["Summary", "summary", "Abstract", "abstract", "Synopsis", "synopsis",
      "TL;DR", "tldr", "Description", "description"]
  else if templateFieldName = "Title" then
    some ["Title", "title", "Name", "name", "Headline", "headline"]
  else if templateFieldName = "Clipped" then
    some ["Clipped", "clipped", "Date", "date", "Added", "added", "Created",
      "created", "Saved", "saved"]
  else if templateFieldName = "Reading Time" then
    some ["Reading Time", "reading time", "ReadTime", "readtime", "Duration",
      "duration", "Length", "length", "Time", "time"]
  else if templateFieldName = "Site" then
    some ["Site", "site", "Source", "source", "Website", "website", "Domain", "domain"]
  else if templateFieldName = "Subreddit" then
    some ["Subreddit", "subreddit", "Community", "community", "Forum", "forum",
      "Site", "site"]
  else none

/-- Result of smart field mapping (interface `SmartFieldMapping`). -/
structure SmartFieldMapping where
  fieldMap : StrMap
  unmappedFields : List String
  isComplete : Bool
  deriving Repr, DecidableEq

/-- `findMatchingField`: try each alias for an exact (case-insensitive) name
match, then fall back to partial containment matching. -/
def findMatchingField (templateFieldName : String) (schemaFields : List CachedField) :
    Option String :=
  let aliases := (fieldAliases templateFieldName).getD [templateFieldName]
  match aliases.findSome?
      (fun al =>
        (schemaFields.find? (fun f => strToLower f.name == strToLower al)).map
          (fun f => f.name)) with
  | some n => some n
  | none =>
    aliases.findSome?
      (fun al =>
        (schemaFields.find?
          (fun f => strIncludes (strToLower f.name) (strToLower al)
            || strIncludes (strToLower al) (strToLower f.name))).map
          (fun f => f.name))

/-- `createSmartFieldMapping`: map each template field to a schema field,
falling back to the template name itself and recording it as unmapped. -/
def createSmartFieldMapping (templateFields : List String)
    (supertag : CachedSupertag) : SmartFieldMapping :=
  let st := templateFields.foldl
    (fun (st : StrMap × List String) templateField =>
      match findMatchingField templateField supertag.fields with
      | some schemaField => (objSet st.1 templateField schemaField, st.2)
      | none => (objSet st.1 templateField templateField, st.2 ++ [templateField]))
    ([], [])
  { fieldMap := st.1, unmappedFields := st.2, isComplete := st.2.length == 0 }

/-! ## Lemmas about the de-duplication filter -/

namespace SchemaCache

theorem filterNewFields_append (xs ys : List CachedField) (seen : List String) :
    filterNewFields seen (xs ++ ys) =
      ((filterNewFields seen xs).1 ++ (filterNewFields (filterNewFields seen xs).2 ys).1,
       (filterNewFields (filterNewFields seen xs).2 ys).2) := by
  induction xs generalizing seen with
  | nil => simp [filterNewFields]
  | cons f rest ih =>
    by_cases h : f.name ∈ seen <;> simp [filterNewFields, h, ih]

theorem filterNewFields_idem (ys : List CachedField) :
    ∀ t s : List String, (∀ n ∈ t, n ∈ s) →
      filterNewFields s (filterNewFields t ys).1 = filterNewFields s ys := by
  induction ys with
  | nil => intro t s _; simp [filterNewFields]
  | cons f rest ih =>
    intro t s hsub
    by_cases h1 : f.name ∈ t
    · have h1s : f.name ∈ s := hsub _ h1
      simp only [filterNewFields, if_pos h1, if_pos h1s]
      exact ih t s hsub
    · by_cases h2 : f.name ∈ s
      · have hsub' : ∀ n ∈ f.name :: t, n ∈ s := by
          intro n hn
          rcases List.mem_cons.mp hn with h | h
          · exact h ▸ h2
          · exact hsub _ h
        simp only [filterNewFields, if_neg h1, if_pos h2]
        exact ih (f.name :: t) s hsub'
      · have hsub' : ∀ n ∈ f.name :: t, n ∈ f.name :: s := by
          intro n hn
          rcases List.mem_cons.mp hn with h | h
          · exact h ▸ List.mem_cons_self _ _
          · exact List.mem_cons_of_mem _ (hsub _ h)
        simp only [filterNewFields, if_neg h1, if_neg h2]
        rw [ih (f.name :: t) (f.name :: s) hsub']

theorem filterNewFields_mem_fst {l : List CachedField} {seen : List String}
    {f : CachedField} (h : f ∈ (filterNewFields seen l).1) : f ∈ l ∧ f.name ∉ seen := by
  induction l generalizing seen with
  | nil => simp [filterNewFields] at h
  | cons g rest ih =>
    by_cases hg : g.name ∈ seen
    · simp only [filterNewFields, if_pos hg] at h
      rcases ih h with ⟨h1, h2⟩
      exact ⟨List.mem_cons_of_mem _ h1, h2⟩
    · simp only [filterNewFields, if_neg hg] at h
      rcases List.mem_cons.mp h with h | h
      · exact ⟨h ▸ List.mem_cons_self _ _, h ▸ hg⟩
      · rcases ih h with ⟨h1, h2⟩
        refine ⟨List.mem_cons_of_mem _ h1, fun hc => h2 ?_⟩
        exact List.mem_cons_of_mem _ hc

theorem filterNewFields_mem_snd {l : List CachedField} {seen : List String} {n : String} :
    n ∈ (filterNewFields seen l).2 ↔
      n ∈ seen ∨ ∃ f ∈ (filterNewFields seen l).1, f.name = n := by
  induction l generalizing seen with
  | nil => simp [filterNewFields]
  | cons g rest ih =>
    by_cases hg : g.name ∈ seen
    · simp only [filterNewFields, if_pos hg]
      exact ih
    · simp only [filterNewFields, if_neg hg]
      rw [ih]
      constructor
      · rintro (h | ⟨f, hf, rfl⟩)
        · rcases List.mem_cons.mp h with h | h
          · exact Or.inr ⟨g, List.mem_cons_self _ _, h.symm⟩
          · exact Or.inl h
        · exact Or.inr ⟨f, List.mem_cons_of_mem _ hf, rfl⟩
      · rintro (h | ⟨f, hf, rfl⟩)
        · exact Or.inl (List.mem_cons_of_mem _ h)
        · rcases List.mem_cons.mp hf with h | h
          · exact Or.inl (h ▸ List.mem_cons_self _ _)
          · exact Or.inr ⟨f, h, rfl⟩

theorem rawParentsAux_acc (lookup : String → Option CachedSupertag)
    (recur : CachedSupertag → List String → List CachedField × List String) :
    ∀ (pids : List String) (visited : List String) (acc : List CachedField),
      rawParentsAux lookup recur pids visited acc =
        (acc ++ (rawParentsAux lookup recur pids visited []).1,
         (rawParentsAux lookup recur pids visited []).2) := by
  intro pids
  induction pids with
  | nil => intro visited acc; simp [rawParentsAux]
  | cons pid rest ih =>
    intro visited acc
    match hl : lookup pid with
    | none => simp only [rawParentsAux, hl]; exact ih visited acc
    | some parent =>
      simp only [rawParentsAux, hl]
      rw [ih _ (acc ++ (recur parent visited).1), ih _ ([] ++ (recur parent visited).1)]
      simp

theorem collectParentsAux_eq_raw (lookup : String → Option CachedSupertag)
    (recur rawrecur : CachedSupertag → List String → List CachedField × List String)
    (Hrec : ∀ p v, recur p v =
      ((filterNewFields [] (rawrecur p v).1).1, (rawrecur p v).2)) :
    ∀ (pids : List String) (visited seen : List String) (acc : List CachedField),
      collectParentsAux lookup recur pids visited seen acc =
        (acc ++ (filterNewFields seen (rawParentsAux lookup rawrecur pids visited []).1).1,
         (rawParentsAux lookup rawrecur pids visited []).2) := by
  intro pids
  induction pids with
  | nil => intro visited seen acc; simp [collectParentsAux, rawParentsAux, filterNewFields]
  | cons pid rest ih =>
    intro visited seen acc
    match hl : lookup pid with
    | none => simp only [collectParentsAux, rawParentsAux, hl]; exact ih visited seen acc
    | some parent =>
      simp only [collectParentsAux, rawParentsAux, hl, Hrec parent visited]
      rw [filterNewFields_idem _ [] seen (by intro n hn; cases hn)]
      rw [ih ((rawrecur parent visited).2)
        (filterNewFields seen (rawrecur parent visited).1).2
        (acc ++ (filterNewFields seen (rawrecur parent visited).1).1)]
      rw [rawParentsAux_acc lookup rawrecur rest ((rawrecur parent visited).2)
        ([] ++ (rawrecur parent visited).1)]
      rw [filterNewFields_append]
      simp

theorem collectInheritedFields_eq_raw (cache : SchemaMap) :
    ∀ (fuel : Nat) (supertag : CachedSupertag) (visited : List String) (depth : Nat),
      collectInheritedFields cache fuel supertag visited depth =
        ((filterNewFields [] (rawCollectFields cache fuel supertag visited depth).1).1,
         (rawCollectFields cache fuel supertag visited depth).2) := by
  intro fuel
  induction fuel with
  | zero => intro supertag visited depth; simp [collectInheritedFields, rawCollectFields,
      filterNewFields]
  | succ fuel ih =>
    intro supertag visited depth
    by_cases hv : supertag.id ∈ visited
    · simp [collectInheritedFields, rawCollectFields, hv, filterNewFields]
    · simp only [collectInheritedFields, rawCollectFields, if_neg hv]
      rw [collectParentsAux_eq_raw (findParent cache)
        (fun parent v => collectInheritedFields cache fuel parent v (depth + 1))
        (fun parent v => rawCollectFields cache fuel parent v (depth + 1))
        (fun p v => ih p v (depth + 1))]
      rw [rawParentsAux_acc (findParent cache)
        (fun parent v => rawCollectFields cache fuel parent v (depth + 1))
        (supertag.extendsIds.getD []) (supertag.id :: visited)
        (supertag.fields.map
          (fun f => { f with originTagName := some supertag.name, depth := some depth }))]
      rw [filterNewFields_append]

theorem filterNewFields_nodup (l : List CachedField) (seen : List String) :
    ((filterNewFields seen l).1.map (fun f => f.name)).Nodup := by
  induction l generalizing seen with
  | nil => simp [filterNewFields]
  | cons g rest ih =>
    by_cases hg : g.name ∈ seen
    · simp only [filterNewFields, if_pos hg]
      exact ih seen
    · simp only [filterNewFields, if_neg hg, List.map_cons, List.nodup_cons]
      refine ⟨fun hc => ?_, ih (g.name :: seen)⟩
      rcases List.mem_map.mp hc with ⟨f, hf, hname⟩
      rcases filterNewFields_mem_fst hf with ⟨_, hns⟩
      exact hns (hname ▸ List.mem_cons_self _ _)

theorem collectInheritedFields_names_nodup (cache : SchemaMap) (fuel : Nat)
    (supertag : CachedSupertag) (visited : List String) (depth : Nat) :
    ((collectInheritedFields cache fuel supertag visited depth).1.map
      (fun f => f.name)).Nodup := by
  rw [collectInheritedFields_eq_raw]
  exact filterNewFields_nodup _ _

/-! ## Termination: the fuel used by `resolveSupertag` is always enough -/

/-- The set of tag ids present in the cache. -/
def cacheIds (cache : SchemaMap) : Finset String :=
  ((mapValues cache).map (fun s => s.id)).toFinset

theorem findParent_id_mem {cache : SchemaMap} {pid : String} {p : CachedSupertag}
    (h : findParent cache pid = some p) : p.id ∈ cacheIds cache := by
  have hmem : p ∈ mapValues cache := List.mem_of_find?_eq_some h
  exact List.mem_toFinset.mpr (List.mem_map.mpr ⟨p, hmem, rfl⟩)

theorem mapGet_mem_values {cache : SchemaMap} {k : String} {tag : CachedSupertag}
    (h : mapGet cache k = some tag) : tag ∈ mapValues cache := by
  unfold mapGet at h
  match hf : cache.find? (fun p => p.1 == k) with
  | none => rw [hf] at h; cases h
  | some pr =>
    rw [hf] at h
    have hmem : pr ∈ cache := List.mem_of_find?_eq_some hf
    have h2 : pr.2 = tag := Option.some.inj h
    exact h2 ▸ List.mem_map.mpr ⟨pr, hmem, rfl⟩

theorem collectParentsAux_visited_mono (lookup : String → Option CachedSupertag)
    (recur : CachedSupertag → List String → List CachedField × List String)
    (Hrec : ∀ p v, v ⊆ (recur p v).2) :
    ∀ (pids : List String) (visited seen : List String) (acc : List CachedField),
      visited ⊆ (collectParentsAux lookup recur pids visited seen acc).2 := by
  intro pids
  induction pids with
  | nil => intro visited seen acc; simp [collectParentsAux]
  | cons pid rest ih =>
    intro visited seen acc
    match hl : lookup pid with
    | none => simp only [collectParentsAux, hl]; exact ih visited seen acc
    | some parent =>
      simp only [collectParentsAux, hl]
      exact (Hrec parent visited).trans (ih _ _ _)

theorem collectInheritedFields_visited_mono (cache : SchemaMap) :
    ∀ (fuel : Nat) (supertag : CachedSupertag) (visited : List String) (depth : Nat),
      visited ⊆ (collectInheritedFields cache fuel supertag visited depth).2 := by
  intro fuel
  induction fuel with
  | zero => intro supertag visited depth; exact fun a ha => ha
  | succ fuel ih =>
    intro supertag visited depth
    by_cases hv : supertag.id ∈ visited
    · simp [collectInheritedFields, hv]
    · simp only [collectInheritedFields, if_neg hv]
      have h1 : visited ⊆ supertag.id :: visited := fun a ha => List.mem_cons_of_mem _ ha
      exact h1.trans
        (collectParentsAux_visited_mono _ _ (fun p v => ih p v (depth + 1)) _ _ _ _)

theorem collectParentsAux_congr (lookup : String → Option CachedSupertag)
    (recur₁ recur₂ : CachedSupertag → List String → List CachedField × List String)
    (base : List String)
    (Hmono : ∀ p v, v ⊆ (recur₁ p v).2)
    (Heq : ∀ pid p v, lookup pid = some p → base ⊆ v → recur₁ p v = recur₂ p v) :
    ∀ (pids : List String) (visited seen : List String) (acc : List CachedField),
      base ⊆ visited →
      collectParentsAux lookup recur₁ pids visited seen acc =
        collectParentsAux lookup recur₂ pids visited seen acc := by
  intro pids
  induction pids with
  | nil => intro visited seen acc _; rfl
  | cons pid rest ih =>
    intro visited seen acc hbase
    match hl : lookup pid with
    | none => simp only [collectParentsAux, hl]; exact ih visited seen acc hbase
    | some parent =>
      simp only [collectParentsAux, hl]
      rw [← Heq pid parent visited hl hbase]
      exact ih _ _ _ (hbase.trans (Hmono parent visited))

theorem notMem_card_lt {x : String} {ids : Finset String} {v : List String} {f : Nat}
    (hx : x ∉ v) (h : ((insert x ids) \ v.toFinset).card < f + 1) :
    (ids \ (x :: v).toFinset).card < f := by
  have hxv : x ∉ v.toFinset := fun hc => hx (List.mem_toFinset.mp hc)
  have h1 : (insert x ids) \ v.toFinset = insert x (ids \ v.toFinset) := by
    rw [Finset.insert_sdiff_of_not_mem _ hxv]
  have h2 : (x :: v).toFinset = insert x v.toFinset := List.toFinset_cons
  rw [h2]
  have h3 : ids \ insert x v.toFinset = (ids \ v.toFinset).erase x := by
    ext a
    simp only [Finset.mem_sdiff, Finset.mem_insert, Finset.mem_erase]
    tauto
  rw [h3]
  rw [h1] at h
  by_cases hxA : x ∈ ids \ v.toFinset
  · have hins : (insert x (ids \ v.toFinset)).card = (ids \ v.toFinset).card :=
      Finset.card_insert_of_mem hxA
    have hcard : ((ids \ v.toFinset).erase x).card = (ids \ v.toFinset).card - 1 :=
      Finset.card_erase_of_mem hxA
    have hpos : 0 < (ids \ v.toFinset).card := Finset.card_pos.mpr ⟨x, hxA⟩
    omega
  · have hcard1 : (insert x (ids \ v.toFinset)).card = (ids \ v.toFinset).card + 1 :=
      Finset.card_insert_of_not_mem hxA
    have hcard2 : ((ids \ v.toFinset).erase x).card = (ids \ v.toFinset).card := by
      rw [Finset.erase_eq_of_not_mem hxA]
    omega

theorem sdiff_card_mono_of_subset {ids : Finset String} {v v' : List String}
    (h : v ⊆ v') : (ids \ v'.toFinset).card ≤ (ids \ v.toFinset).card := by
  apply Finset.card_le_card
  apply Finset.sdiff_subset_sdiff (le_refl _)
  intro a ha
  exact List.mem_toFinset.mpr (h (List.mem_toFinset.mp ha))

theorem collectInheritedFields_stable (cache : SchemaMap) :
    ∀ (f₁ f₂ : Nat) (supertag : CachedSupertag) (visited : List String) (depth : Nat),
      ((insert supertag.id (cacheIds cache)) \ visited.toFinset).card < f₁ →
      ((insert supertag.id (cacheIds cache)) \ visited.toFinset).card < f₂ →
      collectInheritedFields cache f₁ supertag visited depth =
        collectInheritedFields cache f₂ supertag visited depth := by
  intro f₁
  induction f₁ with
  | zero => intro f₂ supertag visited depth h1 _; exact absurd h1 (Nat.not_lt_zero _)
  | succ g ih =>
    intro f₂ supertag visited depth h1 h2
    match f₂, h2 with
    | h + 1, h2 =>
      by_cases hv : supertag.id ∈ visited
      · simp [collectInheritedFields, hv]
      · simp only [collectInheritedFields, if_neg hv]
        apply collectParentsAux_congr (findParent cache) _ _ (supertag.id :: visited)
          (fun p v => collectInheritedFields_visited_mono cache g p v (depth + 1))
        · intro pid p v hfind hbase
          have hpid : p.id ∈ cacheIds cache := findParent_id_mem hfind
          have habs : insert p.id (cacheIds cache) = cacheIds cache :=
            Finset.insert_eq_self.mpr hpid
          have hle : ((cacheIds cache) \ v.toFinset).card ≤
              ((cacheIds cache) \ (supertag.id :: visited).toFinset).card :=
            sdiff_card_mono_of_subset hbase
          have hg : ((cacheIds cache) \ (supertag.id :: visited).toFinset).card < g :=
            notMem_card_lt hv h1
          have hh : ((cacheIds cache) \ (supertag.id :: visited).toFinset).card < h :=
            notMem_card_lt hv h2
          exact ih h p v (depth + 1) (by rw [habs]; omega) (by rw [habs]; omega)
        · exact List.Subset.refl _

theorem resolveSupertagFuel_stable (cache : SchemaMap) (tagName : String) (extra : Nat) :
    resolveSupertagFuel cache (cache.length + 1 + extra) tagName =
      resolveSupertag cache tagName := by
  unfold resolveSupertag resolveSupertagFuel
  match hget : mapGet cache tagName with
  | none => rfl
  | some supertag =>
    have hmem : supertag ∈ mapValues cache := mapGet_mem_values hget
    have hid : supertag.id ∈ cacheIds cache :=
      List.mem_toFinset.mpr (List.mem_map.mpr ⟨supertag, hmem, rfl⟩)
    have habs : insert supertag.id (cacheIds cache) = cacheIds cache :=
      Finset.insert_eq_self.mpr hid
    have hcard : (cacheIds cache).card ≤ cache.length := by
      calc (cacheIds cache).card ≤ ((mapValues cache).map (fun s => s.id)).length :=
            List.toFinset_card_le _
        _ = cache.length := by simp [mapValues]
    have hstable := collectInheritedFields_stable cache (cache.length + 1 + extra)
      (cache.length + 1) supertag [] 0
      (by simp only [habs, List.toFinset_nil, Finset.sdiff_empty]; omega)
      (by simp only [habs, List.toFinset_nil, Finset.sdiff_empty]; omega)
    simp only [hstable]

end SchemaCache

/-! ## Concrete registries used to exercise the claims -/

/-- Tag `T` extends `P` then `Q`; its own field is `t`. -/
def c1TagT : CachedSupertag :=
  { id := "idT", name := "T", normalizedName := "t",
    fields := [{ attributeId := "at", name := "t", normalizedName := "t" }],
    extendsIds := some ["idP", "idQ"] }

/-- Tag `P` (first-listed parent of `T`) extends `G`; its own field is `p`. -/
def c1TagP : CachedSupertag :=
  { id := "idP", name := "P", normalizedName := "p",
    fields := [{ attributeId := "ap", name := "p", normalizedName := "p" }],
    extendsIds := some ["idG"] }

/-- Tag `G` (grandparent of `T` through `P`) declares field `x`. -/
def c1TagG : CachedSupertag :=
  { id := "idG", name := "G", normalizedName := "g",
    fields := [{ attributeId := "ag", name := "x", normalizedName := "x",
                 dataType := some "g-type" }] }

/-- Tag `Q` (second-listed direct parent of `T`) declares fields `x` and `q`. -/
def c1TagQ : CachedSupertag :=
  { id := "idQ", name := "Q", normalizedName := "q",
    fields := [{ attributeId := "aq", name := "x", normalizedName := "x",
                 dataType := some "q-type" },
               { attributeId := "aq2", name := "q", normalizedName := "q" }] }

/-- Loaded registry for the C1 counterexample. -/
def c1Registry : SchemaMap :=
  [("T", c1TagT), ("P", c1TagP), ("G", c1TagG), ("Q", c1TagQ)]

/-- Witness tag for C2: two distinct own fields. -/
def c2Tag : CachedSupertag :=
  { id := "w", name := "w", normalizedName := "w",
    fields := [{ attributeId := "w1", name := "title", normalizedName := "title" },
               { attributeId := "w2", name := "author", normalizedName := "author" }] }

/-- Loaded registry for the C2 witness. -/
def c2Registry : SchemaMap := [("w", c2Tag)]

/-- Resolution of `c2Tag`: its own fields annotated with origin and depth 0. -/
def c2Resolved : CachedSupertag :=
  { id := "w", name := "w", normalizedName := "w",
    fields := [{ attributeId := "w1", name := "title", normalizedName := "title",
                 originTagName := some "w", depth := some 0 },
               { attributeId := "w2", name := "author", normalizedName := "author",
                 originTagName := some "w", depth := some 0 }] }

/-- Tag `A` of the two-tag cycle: fields `title` and `x`, extends `B`. -/
def c3TagA : CachedSupertag :=
  { id := "idA", name := "A", normalizedName := "a",
    fields := [{ attributeId := "fa1", name := "title", normalizedName := "title" },
               { attributeId := "fax", name := "x", normalizedName := "x" }],
    extendsIds := some ["idB"] }

/-- Tag `B` of the two-tag cycle: fields `pages` and `x`, extends `A`. -/
def c3TagB : CachedSupertag :=
  { id := "idB", name := "B", normalizedName := "b",
    fields := [{ attributeId := "fb1", name := "pages", normalizedName := "pages" },
               { attributeId := "fbx", name := "x", normalizedName := "x",
                 dataType := some "b-type" }],
    extendsIds := some ["idA"] }

/-- Loaded registry with the `A extends B, B extends A` cycle. -/
def c3Registry : SchemaMap := [("A", c3TagA), ("B", c3TagB)]

/-! ## Claims C1, C2, C3 -/

/-- C1, counterexample.  In registry `c1Registry` the tag `T` extends `P`
then `Q`; the grandparent `G` (reached through `P`, depth 2) and the direct
parent `Q` (depth 1) both declare a field named `x`.  Resolving `T` keeps
the occurrence of `x` coming from `G` with `depth = 2` and drops the
depth-1 occurrence from `Q`, and the kept depth-2 field precedes `Q`'s
depth-1 field `q` in the flattened list.  This refutes both parts of the
claim's ordering: fields of a deeper ancestor can precede fields of a
shallower one, and on a name conflict the kept field can be the one with
the *higher* depth annotation. -/
theorem c1_counterexample :
    (SchemaCache.resolveSupertag c1Registry "T").map
        (fun t => t.fields.map (fun f => (f.name, f.originTagName, f.depth))) =
      some [("t", some "T", some 0), ("p", some "P", some 1),
            ("x", some "G", some 2), ("q", some "Q", some 1)] ∧
    (∃ f ∈ c1TagQ.fields, f.name = "x") ∧
    mapGet c1Registry "Q" = some c1TagQ ∧
    c1TagT.extendsIds = some ["idP", "idQ"] := by
  refine ⟨by decide, ⟨c1TagQ.fields.head (by decide), by decide, by decide⟩, by decide, rfl⟩

/-- C1, amended.  For every loaded registry and tag name, the field list
produced by `resolveSupertag` (the body of `SchemaCache.getSupertag` on a
loaded cache) is exactly the depth-first root-to-leaf traversal of the
extends graph (own fields first, then each listed parent's entire subtree
before the next listed parent, under the per-resolution visited set) with
only the first occurrence of every field name kept.  The amendment replaces
the claim's "shallower ancestors before deeper ancestors" order with this
depth-first order; the kept occurrence of a duplicated name is the first
one in depth-first order, which need not be the one with the lower depth
annotation. -/
theorem c1_first_occurrence_in_dfs_order_wins :
    ∀ (cache : SchemaMap) (tagName : String),
      SchemaCache.resolveSupertag cache tagName =
        (mapGet cache tagName).map
          (fun tag =>
            { tag with fields :=
                SchemaCache.dedupByName (SchemaCache.rawInheritedFields cache tag) }) := by
  intro cache tagName
  unfold SchemaCache.resolveSupertag SchemaCache.resolveSupertagFuel
    SchemaCache.dedupByName SchemaCache.rawInheritedFields
  match mapGet cache tagName with
  | none => rfl
  | some supertag =>
    simp only [Option.map]
    rw [SchemaCache.collectInheritedFields_eq_raw]

/-- C2.  Whenever `getSupertag` resolves a tag against a loaded registry,
the flattened field list contains no two fields with the same `name`,
whatever duplicates exist inside the tag's own field list or across its
(possibly diamond-shaped or cyclic) extends graph. -/
theorem c2_resolved_field_names_nodup :
    ∀ (cache : SchemaMap) (tagName : String) (tag : CachedSupertag),
      SchemaCache.resolveSupertag cache tagName = some tag →
      (tag.fields.map (fun f => f.name)).Nodup := by
  intro cache tagName tag h
  unfold SchemaCache.resolveSupertag SchemaCache.resolveSupertagFuel at h
  match hget : mapGet cache tagName with
  | none => rw [hget] at h; cases h
  | some supertag =>
    rw [hget] at h
    have h2 := Option.some.inj h
    rw [← h2]
    exact SchemaCache.collectInheritedFields_names_nodup cache _ supertag [] 0

/-- C2, witness: a concrete two-field registry on which the hypothesis of
`c2_resolved_field_names_nodup` is discharged by evaluation. -/
theorem c2_witness :
    (c2Resolved.fields.map (fun f => f.name)).Nodup :=
  c2_resolved_field_names_nodup c2Registry "w" c2Resolved (by decide)

/-- C3.  Termination: the fixed fuel `cache.length + 1` that
`resolveSupertag` grants the recursion is always sufficient — granting any
amount of extra fuel never changes the result, on every registry including
cyclic ones (first conjunct).  On the concrete cycle `A extends B, B
extends A`, resolving `A` returns `A`'s own fields (`title`, `x`, depth 0)
followed by `B`'s non-duplicate field (`pages`, depth 1) — `B`'s duplicate
`x` is dropped and the visited set stops the recursion from re-entering
`A` (remaining conjuncts). -/
theorem c3_cycle_termination :
    (∀ (cache : SchemaMap) (tagName : String) (extra : Nat),
      SchemaCache.resolveSupertagFuel cache (cache.length + 1 + extra) tagName =
        SchemaCache.resolveSupertag cache tagName) ∧
    (SchemaCache.resolveSupertag c3Registry "A").map
        (fun t => t.fields.map (fun f => (f.attributeId, f.originTagName, f.depth))) =
      some [("fa1", some "A", some 0), ("fax", some "A", some 0),
            ("fb1", some "B", some 1)] ∧
    c3TagA.extendsIds = some ["idB"] ∧ c3TagB.extendsIds = some ["idA"] ∧
    (∃ f ∈ c3TagB.fields, f.name = "x") := by
  refine ⟨fun cache tagName extra =>
    SchemaCache.resolveSupertagFuel_stable cache tagName extra, by decide, rfl, rfl, ?_⟩
  exact ⟨c3TagB.fields.get ⟨1, by decide⟩, by decide, by decide⟩

/-! ## Claims C4, C5, C10 (stateful cache behaviour) -/

/-- C4.  If the snapshot file is absent, `getSupertag` returns `none` for
every name, `getAllSupertags` returns `[]`, and the map is cleared (first
conjunct).  If the file exists but its content fails to parse — whenever
the freshness check triggers a load, i.e. no map exists or the observed
mtime differs — the in-memory map is cleared and the same absent results
are returned (second conjunct).  Both operations are total functions of
the modelled file state, so no exception propagates. -/
theorem c4_absent_or_unparsable_snapshot :
    (∀ (fs : SchemaCache.FileState) (st : SchemaCache.CacheState) (tagName : String),
      fs.fileExists = false →
        (SchemaCache.getSupertag fs st tagName).1 = none ∧
        (SchemaCache.getAllSupertags fs st).1 = [] ∧
        (SchemaCache.refreshIfNeeded fs st).cache = none) ∧
    (∀ (fs : SchemaCache.FileState) (st : SchemaCache.CacheState) (tagName : String)
        (m : Nat),
      fs.fileExists = true → fs.statMtime = Except.ok m → fs.readParse = none →
      (st.cache = none ∨ st.lastMtime ≠ some m) →
        (SchemaCache.getSupertag fs st tagName).1 = none ∧
        (SchemaCache.getAllSupertags fs st).1 = [] ∧
        (SchemaCache.refreshIfNeeded fs st).cache = none) := by
  constructor
  · intro fs st tagName h
    simp [SchemaCache.getSupertag, SchemaCache.getAllSupertags,
      SchemaCache.refreshIfNeeded, h]
  · intro fs st tagName m hex hstat hparse htrig
    have hcond : (st.cache.isNone || st.lastMtime != some m) = true := by
      rcases htrig with h | h
      · simp [h]
      · simp [bne_iff_ne, h]
    simp [SchemaCache.getSupertag, SchemaCache.getAllSupertags,
      SchemaCache.refreshIfNeeded, SchemaCache.loadSchemas, hex, hstat, hparse, hcond]

/-- C4, witness: concrete absent-file and parse-failure states. -/
theorem c4_witness :
    ((SchemaCache.getSupertag
        { fileExists := false, statMtime := Except.ok 0, readParse := none }
        { cache := none, lastMtime := none } "person").1 = none ∧
      (SchemaCache.getAllSupertags
        { fileExists := false, statMtime := Except.ok 0, readParse := none }
        { cache := none, lastMtime := none }).1 = [] ∧
      (SchemaCache.refreshIfNeeded
        { fileExists := false, statMtime := Except.ok 0, readParse := none }
        { cache := none, lastMtime := none }).cache = none) ∧
    ((SchemaCache.getSupertag
        { fileExists := true, statMtime := Except.ok 5, readParse := none }
        { cache := some c2Registry, lastMtime := some 4 } "w").1 = none ∧
      (SchemaCache.getAllSupertags
        { fileExists := true, statMtime := Except.ok 5, readParse := none }
        { cache := some c2Registry, lastMtime := some 4 }).1 = [] ∧
      (SchemaCache.refreshIfNeeded
        { fileExists := true, statMtime := Except.ok 5, readParse := none }
        { cache := some c2Registry, lastMtime := some 4 }).cache = none) :=
  ⟨c4_absent_or_unparsable_snapshot.1 _ _ "person" rfl,
   c4_absent_or_unparsable_snapshot.2 _ _ "w" 5 rfl rfl rfl (Or.inr (by decide))⟩

/-- C5.  Mtime-gated reload.  First conjunct: when the file exists and the
stat mtime differs from the last observed value (or no map exists yet), the
refreshed state is rebuilt from the *current* file content and records the
new mtime, and `getSupertag` answers from that new content.  Second
conjunct: when a map exists and the mtime is unchanged, the state is kept
as is, the answer comes from the existing map, and the result does not
depend on the file's content at all (the file is not re-parsed). -/
theorem c5_mtime_gated_reload :
    (∀ (fs : SchemaCache.FileState) (st : SchemaCache.CacheState) (tagName : String)
        (m : Nat),
      fs.fileExists = true → fs.statMtime = Except.ok m →
      (st.cache = none ∨ st.lastMtime ≠ some m) →
        SchemaCache.refreshIfNeeded fs st =
          { cache :=
              match fs.readParse with
              | none => none
              | some data =>
                some (data.supertags.foldl (fun mm tag => mapSet mm tag.name tag) []),
            lastMtime := some m } ∧
        (SchemaCache.getSupertag fs st tagName).1 =
          (match fs.readParse with
           | none => none
           | some data =>
             SchemaCache.resolveSupertag
               (data.supertags.foldl (fun mm tag => mapSet mm tag.name tag) []) tagName)) ∧
    (∀ (fs : SchemaCache.FileState) (st : SchemaCache.CacheState) (tagName : String)
        (m : Nat) (c : SchemaMap),
      fs.fileExists = true → fs.statMtime = Except.ok m →
      st.cache = some c → st.lastMtime = some m →
        SchemaCache.refreshIfNeeded fs st = st ∧
        (SchemaCache.getSupertag fs st tagName).1 = SchemaCache.resolveSupertag c tagName ∧
        (∀ p, SchemaCache.getSupertag { fs with readParse := p } st tagName =
          SchemaCache.getSupertag fs st tagName)) := by
  constructor
  · intro fs st tagName m hex hstat htrig
    have hcond : (st.cache.isNone || st.lastMtime != some m) = true := by
      rcases htrig with h | h
      · simp [h]
      · simp [bne_iff_ne, h]
    constructor
    · simp only [SchemaCache.refreshIfNeeded, hex, Bool.not_true, Bool.false_eq_true,
        if_false, hstat, hcond, if_true, SchemaCache.loadSchemas]
      match fs.readParse with
      | none => rfl
      | some data => rfl
    · simp only [SchemaCache.getSupertag, SchemaCache.refreshIfNeeded, hex, Bool.not_true,
        Bool.false_eq_true, if_false, hstat, hcond, if_true, SchemaCache.loadSchemas]
      match fs.readParse with
      | none => rfl
      | some data => rfl
  · intro fs st tagName m c hex hstat hcache hm
    have hcond : (st.cache.isNone || st.lastMtime != some m) = false := by
      simp [hcache, hm]
    refine ⟨?_, ?_, ?_⟩
    · simp [SchemaCache.refreshIfNeeded, hex, hstat, hcond, hm, hcache]
    · simp [SchemaCache.getSupertag, SchemaCache.refreshIfNeeded, hex, hstat, hcond,
        hcache, hm]
    · intro p
      simp [SchemaCache.getSupertag, SchemaCache.refreshIfNeeded, hex, hstat, hcond, hm,
        hcache]

/-- C5, witness: a rewrite that bumps the mtime is reflected (the old
one-tag map is replaced by the newly parsed empty registry), and an
unchanged mtime keeps the old map regardless of file content. -/
theorem c5_witness :
    (SchemaCache.refreshIfNeeded
        { fileExists := true, statMtime := Except.ok 7,
          readParse := some { version := 1, supertags := [] } }
        { cache := some c2Registry, lastMtime := some 4 } =
      { cache := some [], lastMtime := some 7 }) ∧
    (SchemaCache.refreshIfNeeded
        { fileExists := true, statMtime := Except.ok 4,
          readParse := some { version := 1, supertags := [] } }
        { cache := some c2Registry, lastMtime := some 4 } =
      { cache := some c2Registry, lastMtime := some 4 }) := by
  constructor
  · have h := (c5_mtime_gated_reload.1
      { fileExists := true, statMtime := Except.ok 7,
        readParse := some { version := 1, supertags := [] } }
      { cache := some c2Registry, lastMtime := some 4 } "w" 7 rfl rfl
      (Or.inr (by decide))).1
    exact h
  · have h := (c5_mtime_gated_reload.2
      { fileExists := true, statMtime := Except.ok 4,
        readParse := some { version := 1, supertags := [] } }
      { cache := some c2Registry, lastMtime := some 4 } "w" 4 c2Registry rfl rfl rfl rfl).1
    exact h

/-- C10.  When a load has previously succeeded (a map is cached) and a later
freshness check's `statSync` throws while the file still exists, the error
is swallowed: the state is kept unchanged and both public operations serve
the previously cached — possibly stale — data instead of returning absent,
clearing, or reloading. -/
theorem c10_stat_error_serves_stale :
    ∀ (fs : SchemaCache.FileState) (st : SchemaCache.CacheState) (tagName : String)
      (c : SchemaMap),
      st.cache = some c → fs.fileExists = true →
      fs.statMtime = Except.error () →
        SchemaCache.refreshIfNeeded fs st = st ∧
        (SchemaCache.getSupertag fs st tagName).1 = SchemaCache.resolveSupertag c tagName ∧
        (SchemaCache.getAllSupertags fs st).1 = mapValues c := by
  intro fs st tagName c hcache hex hstat
  refine ⟨?_, ?_, ?_⟩
  · simp [SchemaCache.refreshIfNeeded, hex, hstat]
  · simp [SchemaCache.getSupertag, SchemaCache.refreshIfNeeded, hex, hstat, hcache]
  · simp [SchemaCache.getAllSupertags, SchemaCache.refreshIfNeeded, hex, hstat, hcache]

/-! ## Analyzer scoring: closed form -/

theorem testDescriptionPattern_truthy {n : String} (h : testDescriptionPattern n = true) :
    optTruthy (some n) = true := by
  have hne : n ≠ "" := by
    rintro rfl
    exact absurd h (by decide)
  simp [optTruthy, hne]

theorem analyzeStep_score (st : AnalyzedSupertag) (f : CachedField) :
    (analyzeStep st f).score =
      st.score + (if !st.hasUrlField && matchesUrlFamily f then 10 else 0)
        + (if testTextPattern f.name then 5 else 0)
        + (if !st.hasAuthorField && testAuthorPattern f.name then 2 else 0)
        + (if !(optTruthy st.descriptionFieldName) && testDescriptionPattern f.name
           then 3 else 0) := by
  cases hU : matchesUrlFamily f <;> cases hB : st.hasUrlField <;>
    cases hT : testTextPattern f.name <;> cases hA : testAuthorPattern f.name <;>
    cases hB2 : st.hasAuthorField <;> cases hD : testDescriptionPattern f.name <;>
    cases hDs : optTruthy st.descriptionFieldName <;>
    simp [analyzeStep, hU, hB, hT, hA, hB2, hD, hDs]

theorem analyzeStep_hasUrl (st : AnalyzedSupertag) (f : CachedField) :
    (analyzeStep st f).hasUrlField = (st.hasUrlField || matchesUrlFamily f) := by
  cases hU : matchesUrlFamily f <;> cases hB : st.hasUrlField <;>
    cases hT : testTextPattern f.name <;> cases hA : testAuthorPattern f.name <;>
    cases hB2 : st.hasAuthorField <;> cases hD : testDescriptionPattern f.name <;>
    cases hDs : optTruthy st.descriptionFieldName <;>
    simp [analyzeStep, hU, hB, hT, hA, hB2, hD, hDs]

theorem analyzeStep_hasAuthor (st : AnalyzedSupertag) (f : CachedField) :
    (analyzeStep st f).hasAuthorField = (st.hasAuthorField || testAuthorPattern f.name) := by
  cases hU : matchesUrlFamily f <;> cases hB : st.hasUrlField <;>
    cases hT : testTextPattern f.name <;> cases hA : testAuthorPattern f.name <;>
    cases hB2 : st.hasAuthorField <;> cases hD : testDescriptionPattern f.name <;>
    cases hDs : optTruthy st.descriptionFieldName <;>
    simp [analyzeStep, hU, hB, hT, hA, hB2, hD, hDs]

theorem analyzeStep_descTruthy (st : AnalyzedSupertag) (f : CachedField) :
    optTruthy (analyzeStep st f).descriptionFieldName =
      (optTruthy st.descriptionFieldName || testDescriptionPattern f.name) := by
  cases hU : matchesUrlFamily f <;> cases hB : st.hasUrlField <;>
    cases hT : testTextPattern f.name <;> cases hA : testAuthorPattern f.name <;>
    cases hB2 : st.hasAuthorField <;> cases hD : testDescriptionPattern f.name <;>
    cases hDs : optTruthy st.descriptionFieldName <;>
    simp [analyzeStep, hU, hB, hT, hA, hB2, hD, hDs] <;>
    exact testDescriptionPattern_truthy hD

theorem analyzeFold_score (fields : List CachedField) :
    ∀ st : AnalyzedSupertag,
      (fields.foldl analyzeStep st).score =
        st.score
        + (if st.hasUrlField then 0
           else if fields.any matchesUrlFamily then 10 else 0)
        + 5 * fields.countP (fun f => testTextPattern f.name)
        + (if st.hasAuthorField then 0
           else if fields.any (fun f => testAuthorPattern f.name) then 2 else 0)
        + (if optTruthy st.descriptionFieldName then 0
           else if fields.any (fun f => testDescriptionPattern f.name) then 3 else 0) := by
  induction fields with
  | nil =>
    intro st
    cases st.hasUrlField <;> cases st.hasAuthorField <;>
      cases optTruthy st.descriptionFieldName <;> simp
  | cons f rest ih =>
    intro st
    rw [List.foldl_cons, ih (analyzeStep st f), analyzeStep_score, analyzeStep_hasUrl,
      analyzeStep_hasAuthor, analyzeStep_descTruthy]
    simp only [List.any_cons, List.countP_cons]
    by_cases hU : st.hasUrlField = true <;> by_cases hA : st.hasAuthorField = true <;>
      by_cases hD : optTruthy st.descriptionFieldName = true <;>
      by_cases hmU : matchesUrlFamily f = true <;>
      by_cases hmT : testTextPattern f.name = true <;>
      by_cases hmA : testAuthorPattern f.name = true <;>
      by_cases hmD : testDescriptionPattern f.name = true <;>
      simp [hU, hA, hD, hmU, hmT, hmA, hmD] <;>
      (try split_ifs) <;> omega

theorem analyzeSupertag_score_closed (tag : CachedSupertag) :
    (analyzeSupertag tag).score =
      (if tag.fields.any matchesUrlFamily then 10 else 0)
      + 5 * tag.fields.countP (fun f => testTextPattern f.name)
      + (if tag.fields.any (fun f => testAuthorPattern f.name) then 2 else 0)
      + (if tag.fields.any (fun f => testDescriptionPattern f.name) then 3 else 0) := by
  unfold analyzeSupertag
  rw [analyzeFold_score]
  simp [optTruthy]

/-! ## Claim C6 -/

/-- URL-typed field of the C6 schemas. -/
def c6UrlField : CachedField :=
  { attributeId := "u", name := "URL", normalizedName := "url", dataType := some "url" }

/-- Schema with a URL-typed field plus two free-text fields, one of whose
names happens to contain "url". -/
def c6SchemaWith : CachedSupertag :=
  { id := "s1", name := "S", normalizedName := "s",
    fields := [c6UrlField,
      { attributeId := "t1", name := "Notes url", normalizedName := "notes url",
        dataType := some "plain" },
      { attributeId := "t2", name := "Summary", normalizedName := "summary",
        dataType := some "plain" }] }

/-- The same schema with the URL-typed field removed. -/
def c6SchemaWithout : CachedSupertag :=
  { id := "s1", name := "S", normalizedName := "s",
    fields := [
      { attributeId := "t1", name := "Notes url", normalizedName := "notes url",
        dataType := some "plain" },
      { attributeId := "t2", name := "Summary", normalizedName := "summary",
        dataType := some "plain" }] }

/-- C6, counterexample.  `c6SchemaWith` holds a URL-typed field plus two
fields matching the free-text name pattern ("Notes url" and "Summary"),
and `c6SchemaWithout` is the identical schema with the URL field removed —
yet the two scores are equal (both 23), not strictly ordered: with the URL
field gone, "Notes url" itself wins the one-shot URL bonus because its
lower-cased name contains "url".  The claim's strict-monotonicity part is
therefore false as stated. -/
theorem c6_counterexample :
    c6SchemaWith.fields = c6UrlField :: c6SchemaWithout.fields ∧
    c6UrlField.dataType = some "url" ∧
    testTextPattern "Notes url" = true ∧ testTextPattern "Summary" = true ∧
    ¬((analyzeSupertag c6SchemaWithout).score < (analyzeSupertag c6SchemaWith).score) := by
  refine ⟨rfl, rfl, by decide, by decide, by decide⟩

/-- C6, amended.  First conjunct: removing a URL-typed field strictly
lowers the score *provided no remaining field itself matches the URL
family* (url-ish name, name containing "url", or url data type) — the
hypothesis the counterexample shows is necessary; the two free-text fields
of the claim are kept as the count hypothesis.  Second conjunct: a schema
none of whose fields matches any of the four pattern families scores
exactly 0. -/
theorem c6_scoring_monotonicity_amended :
    (∀ (tag tag' : CachedSupertag) (pre post : List CachedField) (f : CachedField),
      tag.fields = pre ++ f :: post → tag'.fields = pre ++ post →
      f.dataType = some "url" →
      2 ≤ (pre ++ post).countP (fun g => testTextPattern g.name) →
      (∀ g ∈ pre ++ post, matchesUrlFamily g = false) →
      (analyzeSupertag tag').score < (analyzeSupertag tag).score) ∧
    (∀ tag : CachedSupertag,
      (∀ g ∈ tag.fields, matchesUrlFamily g = false ∧ testTextPattern g.name = false ∧
        testAuthorPattern g.name = false ∧ testDescriptionPattern g.name = false) →
      (analyzeSupertag tag).score = 0) := by
  constructor
  · intro tag tag' pre post f hfields hfields' hurl _hcount hnourl
    rw [analyzeSupertag_score_closed, analyzeSupertag_score_closed, hfields, hfields']
    have hf : matchesUrlFamily f = true := by
      simp [matchesUrlFamily, hurl]
    have hanyL : (pre ++ f :: post).any matchesUrlFamily = true := by
      simp only [List.any_append, List.any_cons, hf, Bool.true_or, Bool.or_true]
    have hanyR : (pre ++ post).any matchesUrlFamily = false := by
      rw [List.any_eq_false]
      intro g hg
      simp [hnourl g hg]
    rw [hanyL, hanyR]
    simp only [List.countP_append, List.countP_cons, List.any_append, List.any_cons]
    cases hpa : pre.any (fun g => testAuthorPattern g.name) <;>
      cases hsa : post.any (fun g => testAuthorPattern g.name) <;>
      cases hfa : testAuthorPattern f.name <;>
      cases hpd : pre.any (fun g => testDescriptionPattern g.name) <;>
      cases hsd : post.any (fun g => testDescriptionPattern g.name) <;>
      cases hfd : testDescriptionPattern f.name <;>
      cases hft : testTextPattern f.name <;>
      simp <;> omega
  · intro tag hnone
    rw [analyzeSupertag_score_closed]
    have h1 : tag.fields.any matchesUrlFamily = false := by
      rw [List.any_eq_false]; intro g hg; simp [(hnone g hg).1]
    have h2 : tag.fields.countP (fun f => testTextPattern f.name) = 0 := by
      rw [List.countP_eq_zero]; intro g hg; simp [(hnone g hg).2.1]
    have h3 : tag.fields.any (fun f => testAuthorPattern f.name) = false := by
      rw [List.any_eq_false]; intro g hg; simp [(hnone g hg).2.2.1]
    have h4 : tag.fields.any (fun f => testDescriptionPattern f.name) = false := by
      rw [List.any_eq_false]; intro g hg; simp [(hnone g hg).2.2.2]
    rw [h1, h2, h3, h4]
    simp

/-- Schema used by the C6 witness: URL-typed field plus `Notes` and
`Summary`, with no other URL-family field. -/
def c6CleanWith : CachedSupertag :=
  { id := "s2", name := "S2", normalizedName := "s2",
    fields := [c6UrlField,
      { attributeId := "n", name := "Notes", normalizedName := "notes",
        dataType := some "plain" },
      { attributeId := "m", name := "Summary", normalizedName := "summary",
        dataType := some "plain" }] }

/-- The C6 witness schema without its URL field. -/
def c6CleanWithout : CachedSupertag :=
  { id := "s2", name := "S2", normalizedName := "s2",
    fields := [
      { attributeId := "n", name := "Notes", normalizedName := "notes",
        dataType := some "plain" },
      { attributeId := "m", name := "Summary", normalizedName := "summary",
        dataType := some "plain" }] }

/-- Schema with no field matching any pattern family. -/
def c6NoMatch : CachedSupertag :=
  { id := "s3", name := "S3", normalizedName := "s3",
    fields := [{ attributeId := "p", name := "Pages", normalizedName := "pages",
                 dataType := some "int" }] }

/-- C6, witness: the amended strict inequality on a clean three-field
schema, and the exact-zero score on a schema with no matching field. -/
theorem c6_witness :
    (analyzeSupertag c6CleanWithout).score < (analyzeSupertag c6CleanWith).score ∧
    (analyzeSupertag c6NoMatch).score = 0 :=
  ⟨c6_scoring_monotonicity_amended.1 c6CleanWith c6CleanWithout []
      c6CleanWithout.fields c6UrlField rfl rfl rfl (by decide) (by decide),
   c6_scoring_monotonicity_amended.2 c6NoMatch (by decide)⟩

/-- C10, witness: with a cached one-tag map and a throwing stat, the cached
tag is still resolved even though the file's current content (an empty
registry) no longer contains it. -/
theorem c10_witness :
    (SchemaCache.getSupertag
        { fileExists := true, statMtime := Except.error (),
          readParse := some { version := 2, supertags := [] } }
        { cache := some c2Registry, lastMtime := some 4 } "w").1 =
      SchemaCache.resolveSupertag c2Registry "w" :=
  (c10_stat_error_serves_stale
    { fileExists := true, statMtime := Except.error (),
      readParse := some { version := 2, supertags := [] } }
    { cache := some c2Registry, lastMtime := some 4 } "w" c2Registry rfl rfl rfl).2.1

/-! ## Claim C7: the end-to-end bookmark example -/

/-- Tag `bookmark` with a `url`-typed `URL` field and a plain `Notes` field. -/
def c7BookmarkTag : CachedSupertag :=
  { id := "bk", name := "bookmark", normalizedName := "bookmark",
    fields := [
      { attributeId := "a1", name := "URL", normalizedName := "url",
        dataType := some "url" },
      { attributeId := "a2", name := "Notes", normalizedName := "notes",
        dataType := some "plain" }] }

/-- Capture content of the end-to-end example. -/
def c7Clip : ClipData :=
  { url := "https://example.com", title := "Example", selection := some "Key idea" }

/-- C7.  On the bookmark tag and the example capture, `mapClipToFields`
applied to the `analyzeSupertag` result yields exactly
`{URL: "https://example.com", Notes: "Key idea"}` with link formatting off,
and exactly `{URL: "[Example](https://example.com)", Notes: "Key idea"}`
with `formatUrlAsLink` set. -/
theorem c7_end_to_end_example :
    mapClipToFields c7Clip (analyzeSupertag c7BookmarkTag) {} =
      [("URL", "https://example.com"), ("Notes", "Key idea")] ∧
    mapClipToFields c7Clip (analyzeSupertag c7BookmarkTag) { formatUrlAsLink := true } =
      [("URL", "[Example](https://example.com)"), ("Notes", "Key idea")] := by
  exact ⟨by decide, by decide⟩

/-! ## Claim C8: slots the mapper writes -/

theorem mem_objSet {m : StrMap} {k v k' v' : String}
    (h : (k', v') ∈ objSet m k v) : k' = k ∨ (k', v') ∈ m := by
  unfold objSet at h
  by_cases hany : m.any (fun p => p.1 == k) = true
  · rw [if_pos hany] at h
    rcases List.mem_map.mp h with ⟨p, hp, heq⟩
    by_cases hpk : (p.1 == k) = true
    · rw [if_pos hpk] at heq
      exact Or.inl (congrArg Prod.fst heq).symm
    · rw [if_neg hpk] at heq
      exact Or.inr (heq ▸ hp)
  · rw [if_neg hany] at h
    rcases List.mem_append.mp h with h | h
    · exact Or.inr h
    · rcases List.mem_singleton.mp h with heq
      exact Or.inl (congrArg Prod.fst heq)

theorem optTruthy_getD {o : Option String} (h : optTruthy o = true) :
    o = some (o.getD "") := by
  cases o with
  | none => cases h
  | some s => rfl

theorem getBestTextField_mem {l : List String} {n : String}
    (h : getBestTextField l = some n) : n ∈ l := by
  unfold getBestTextField at h
  match hfs : ["Notes", "Summary", "Highlight", "Snapshot"].findSome?
      (fun preferred => l.find? (fun f => strToLower f == strToLower preferred)) with
  | some found =>
    rw [hfs] at h
    rcases List.exists_of_findSome?_eq_some hfs with ⟨preferred, _, hfind⟩
    have := List.mem_of_find?_eq_some hfind
    exact (Option.some.inj h) ▸ this
  | none =>
    rw [hfs] at h
    match l, h with
    | a :: rest, h => exact (Option.some.inj h) ▸ List.mem_cons_self _ _

/-- Clip with an empty source URL. -/
def c8Clip : ClipData := { url := "", title := "T" }

/-- C8, counterexample.  The URL slot's input value is empty (`url = ""`),
yet the mapper still writes the URL field: the output is `{URL: ""}`, not
the empty map.  So the claim's "omits any semantic slot (URL, selection,
author, description) whose input value is empty" is false for the URL
slot — the code never checks `clip.url`. -/
theorem c8_counterexample :
    c8Clip.url = "" ∧
    mapClipToFields c8Clip (analyzeSupertag c7BookmarkTag) {} = [("URL", "")] := by
  exact ⟨rfl, by decide⟩

theorem mem_ite_objSet {c : Prop} [Decidable c] {m : StrMap} {k v k' v' : String}
    (h : (k', v') ∈ (if c then objSet m k v else m)) : (c ∧ k' = k) ∨ (k', v') ∈ m := by
  by_cases hc : c
  · rw [if_pos hc] at h
    rcases mem_objSet h with h | h
    · exact Or.inl ⟨hc, h⟩
    · exact Or.inr h
  · rw [if_neg hc] at h
    exact Or.inr h

/-- Key soundness of the innermost (URL) stage of `mapClipToFields`. -/
theorem c8_url_stage (clip : ClipData) (analyzed : AnalyzedSupertag)
    (options : MapOptions) {k v : String}
    (hmem : (k, v) ∈
      (if analyzed.hasUrlField && optTruthy analyzed.urlFieldName then
        objSet [] (analyzed.urlFieldName.getD "")
          (if options.formatUrlAsLink then
            "[" ++ clip.title ++ "](" ++ clip.url ++ ")"
          else clip.url)
      else [])) :
    (analyzed.hasUrlField = true ∧ analyzed.urlFieldName = some k) ∨
      k ∈ analyzed.textFields ∨
      (analyzed.hasAuthorField = true ∧ analyzed.authorFieldName = some k) ∨
      analyzed.descriptionFieldName = some k := by
  rcases mem_ite_objSet hmem with ⟨h1, hk⟩ | hmem
  · subst hk
    simp only [Bool.and_eq_true] at h1
    exact Or.inl ⟨h1.1, optTruthy_getD h1.2⟩
  · cases hmem

/-- C8, amended.  First conjunct: every key the mapper writes is exported
by the classification step — the detected URL field, a member of
`textFields`, the detected author field, or the detected description field;
the mapper never invents a field name.  Second conjunct: an empty-string
selection, author, or description behaves exactly like an absent one.
Third conjunct: with all three optional inputs absent the output is exactly
the URL slot when a URL field was detected and empty otherwise — the
selection, author, and description slots are omitted, but the URL slot is
written from `clip.url` unconditionally (the amendment the counterexample
forces). -/
theorem c8_mapper_slots_amended :
    (∀ (clip : ClipData) (analyzed : AnalyzedSupertag) (options : MapOptions)
        (k v : String), (k, v) ∈ mapClipToFields clip analyzed options →
      (analyzed.hasUrlField = true ∧ analyzed.urlFieldName = some k) ∨
      k ∈ analyzed.textFields ∨
      (analyzed.hasAuthorField = true ∧ analyzed.authorFieldName = some k) ∨
      analyzed.descriptionFieldName = some k) ∧
    (∀ (clip : ClipData) (analyzed : AnalyzedSupertag) (options : MapOptions),
      mapClipToFields { clip with selection := some "" } analyzed options =
        mapClipToFields { clip with selection := none } analyzed options ∧
      mapClipToFields { clip with author := some "" } analyzed options =
        mapClipToFields { clip with author := none } analyzed options ∧
      mapClipToFields { clip with description := some "" } analyzed options =
        mapClipToFields { clip with description := none } analyzed options) ∧
    (∀ (clip : ClipData) (analyzed : AnalyzedSupertag) (options : MapOptions),
      clip.selection = none → clip.author = none → clip.description = none →
      mapClipToFields clip analyzed options =
        if analyzed.hasUrlField && optTruthy analyzed.urlFieldName then
          [(analyzed.urlFieldName.getD "",
            if options.formatUrlAsLink then
              "[" ++ clip.title ++ "](" ++ clip.url ++ ")"
            else clip.url)]
        else [] ) := by
  refine ⟨?_, ?_, ?_⟩
  · intro clip analyzed options k v hmem
    simp only [mapClipToFields] at hmem
    rcases mem_ite_objSet hmem with ⟨h4, hk⟩ | hmem
    · subst hk
      simp only [Bool.and_eq_true] at h4
      exact Or.inr (Or.inr (Or.inr (optTruthy_getD h4.2)))
    · rcases mem_ite_objSet hmem with ⟨h3, hk⟩ | hmem
      · subst hk
        simp only [Bool.and_eq_true] at h3
        exact Or.inr (Or.inr (Or.inl ⟨h3.1.2, optTruthy_getD h3.2⟩))
      · by_cases h2 : (optTruthy clip.selection
            && decide (0 < analyzed.textFields.length)) = true
        · rw [if_pos h2] at hmem
          match hbt : getBestTextField analyzed.textFields with
          | none =>
            simp only [hbt] at hmem
            exact c8_url_stage clip analyzed options hmem
          | some n =>
            simp only [hbt] at hmem
            by_cases hne : (n != "") = true
            · rw [if_pos hne] at hmem
              rcases mem_objSet hmem with hk | hmem
              · subst hk
                exact Or.inr (Or.inl (getBestTextField_mem hbt))
              · exact c8_url_stage clip analyzed options hmem
            · rw [if_neg hne] at hmem
              exact c8_url_stage clip analyzed options hmem
        · rw [if_neg h2] at hmem
          exact c8_url_stage clip analyzed options hmem
  · intro clip analyzed options
    refine ⟨?_, ?_, ?_⟩ <;> simp [mapClipToFields, optTruthy, bne_self_eq_false]
  · intro clip analyzed options hsel hauth hdesc
    simp [mapClipToFields, hsel, hauth, hdesc, optTruthy, objSet]

/-- C8, witness: the key-soundness part applied to the bookmark example's
URL entry, and the absent-slots part applied to the empty clip. -/
theorem c8_witness :
    (((analyzeSupertag c7BookmarkTag).hasUrlField = true ∧
        (analyzeSupertag c7BookmarkTag).urlFieldName = some "URL") ∨
      "URL" ∈ (analyzeSupertag c7BookmarkTag).textFields ∨
      ((analyzeSupertag c7BookmarkTag).hasAuthorField = true ∧
        (analyzeSupertag c7BookmarkTag).authorFieldName = some "URL") ∨
      (analyzeSupertag c7BookmarkTag).descriptionFieldName = some "URL") ∧
    mapClipToFields c8Clip (analyzeSupertag c7BookmarkTag) {} =
      (if (analyzeSupertag c7BookmarkTag).hasUrlField &&
          optTruthy (analyzeSupertag c7BookmarkTag).urlFieldName then
        [((analyzeSupertag c7BookmarkTag).urlFieldName.getD "",
          if ({} : MapOptions).formatUrlAsLink then
            "[" ++ c8Clip.title ++ "](" ++ c8Clip.url ++ ")"
          else c8Clip.url)]
      else []) :=
  ⟨c8_mapper_slots_amended.1 c7Clip (analyzeSupertag c7BookmarkTag) {} "URL"
      "https://example.com" (by decide),
   c8_mapper_slots_amended.2.2 c8Clip (analyzeSupertag c7BookmarkTag) {} rfl rfl rfl⟩

/-! ## Claim C9: alias resolution precedence -/

/-- C9.  For any schema whose fields include one named `Link` and one named
`Source` but none whose lower-cased name is `url`, mapping the abstract
template field `URL` resolves through the fixed alias table (`URL` before
`Link` before `Source`) to a link-named field: the exact-match pass fails
on the three `url` aliases, succeeds at `Link`, and `Source` is never
reached.  The mapping is complete and nothing is unmapped; determinism is
definitional, since the embedded `createSmartFieldMapping` is a pure
function of its arguments. -/
theorem c9_alias_precedence :
    ∀ (tag : CachedSupertag),
      (∃ f ∈ tag.fields, f.name = "Link") →
      (∃ f ∈ tag.fields, f.name = "Source") →
      (∀ f ∈ tag.fields, strToLower f.name ≠ "url") →
      ∃ f, f ∈ tag.fields ∧ strToLower f.name = "link" ∧
        (createSmartFieldMapping ["URL"] tag).fieldMap = [("URL", f.name)] ∧
        (createSmartFieldMapping ["URL"] tag).isComplete = true ∧
        (createSmartFieldMapping ["URL"] tag).unmappedFields = [] := by
  intro tag hLink _hSource hnourl
  have hnone : ∀ al : String, strToLower al = "url" →
      (tag.fields.find? (fun f => strToLower f.name == strToLower al)) = none := by
    intro al hal
    rw [List.find?_eq_none]
    intro f hf
    rw [hal]
    simp only [beq_iff_eq]
    exact hnourl f hf
  obtain ⟨fL, hfL, hnameL⟩ := hLink
  have hpredL : (strToLower fL.name == strToLower "Link") = true := by
    rw [hnameL]; decide
  have hsome : (tag.fields.find? (fun f => strToLower f.name == strToLower "Link")).isSome := by
    rw [List.find?_isSome]
    exact ⟨fL, hfL, hpredL⟩
  obtain ⟨f₀, hf₀⟩ := Option.isSome_iff_exists.mp hsome
  have hf₀mem : f₀ ∈ tag.fields := List.mem_of_find?_eq_some hf₀
  have hf₀low : strToLower f₀.name = "link" := by
    have h2 := List.find?_some hf₀
    simp only [beq_iff_eq] at h2
    rw [h2]; decide
  have e1 : (tag.fields.find? (fun f => strToLower f.name == strToLower "URL")) = none :=
    hnone "URL" rfl
  have e2 : (tag.fields.find? (fun f => strToLower f.name == strToLower "Url")) = none :=
    hnone "Url" rfl
  have e3 : (tag.fields.find? (fun f => strToLower f.name == strToLower "url")) = none :=
    hnone "url" rfl
  have hfmf : findMatchingField "URL" tag.fields = some f₀.name := by
    unfold findMatchingField
    have hal : fieldAliases "URL" =
        some ["URL", "Url", "url", "Link", "link", "Source", "source", "Href", "href"] :=
      rfl
    rw [hal]
    simp [List.findSome?_cons, e1, e2, e3, hf₀]
  refine ⟨f₀, hf₀mem, hf₀low, ?_, ?_, ?_⟩ <;>
    simp [createSmartFieldMapping, hfmf, objSet]

/-- Schema with fields `Source` then `Link` used to witness C9. -/
def c9Tag : CachedSupertag :=
  { id := "ls", name := "LS", normalizedName := "ls",
    fields := [
      { attributeId := "s", name := "Source", normalizedName := "source" },
      { attributeId := "l", name := "Link", normalizedName := "link" }] }

/-- C9, witness: on a schema with exactly `Source` and `Link`, the abstract
name `URL` resolves to `Link`. -/
theorem c9_witness :
    ∃ f, f ∈ c9Tag.fields ∧ strToLower f.name = "link" ∧
      (createSmartFieldMapping ["URL"] c9Tag).fieldMap = [("URL", f.name)] ∧
      (createSmartFieldMapping ["URL"] c9Tag).isComplete = true ∧
      (createSmartFieldMapping ["URL"] c9Tag).unmappedFields = [] :=
  c9_alias_precedence c9Tag
    ⟨c9Tag.fields.get ⟨1, by decide⟩, by decide, by decide⟩
    ⟨c9Tag.fields.get ⟨0, by decide⟩, by decide, by decide⟩
    (by decide)
